import Mathlib

/-!
Shallow embedding of `src/main.cpp` (deadlock_prevention): two shared integer
resources (`resource_a = 100`, `resource_b = 200`) guarded by two mutexes,
four locking strategies executed by two worker threads, and the CLI glue
(`print_usage`, `parse_args`, the dispatch `switch` of `main`).

Concurrency is modelled as an interleaving semantics.  Each strategy is a
small state machine: a per-thread program counter walks through the atomic
actions of the strategy's loop body (lock acquisition, the first-iteration
report, the load and the store of a read-modify-write increment, the
simulated-work sleep, lock release).  A schedule (`List Bool`, `false` =
worker 1, `true` = worker 2) picks which thread attempts the next step; a
thread whose next action is acquiring a mutex that is currently held makes
no progress on its turn, and a finished thread's steps are no-ops.
-/

set_option maxHeartbeats 1000000

namespace DeadlockPrevention

/-! ## Safe-Single strategy: `safe_single_access` (src/main.cpp lines 19-31)

Loop body for `i = 0 .. iters-1`:
`lock_guard lock(mutex_a)`; if `i == 0` print the pre-increment value of
`resource_a`; `resource_a += 1` (modelled as a separate load and store);
`sleep_for(10us)`; the guard releases `mutex_a` at the end of the iteration
scope (after the sleep). -/

/-- Program counter inside one iteration of `safe_single_access`. -/
inductive SafePh
  | lock
  | report
  | load
  | store
  | sleep
  | unlock
  | done
  deriving DecidableEq

/-- Local state of one worker running `safe_single_access`: current loop index
`i`, program counter, the local value loaded from `resource_a` (`tmp`), and the
reports it has printed (`(iteration, printed value)` pairs). -/
structure SafeThread where
  i : Nat
  ph : SafePh
  tmp : Int
  out : List (Nat × Int)
  deriving DecidableEq

/-- Shared state of the Safe-Single system: `resource_a`, the owner of
`mutex_a` (`none` = free), and the two workers. -/
structure SafeState where
  ra : Int
  ownA : Option Bool
  t1 : SafeThread
  t2 : SafeThread
  deriving DecidableEq

/-- Result of one thread-local step: updated `resource_a`, `mutex_a` owner and
thread state. -/
structure SafeCell where
  ra : Int
  ownA : Option Bool
  th : SafeThread
  deriving DecidableEq

/-- One atomic step of `safe_single_access` for the thread `me`, given the
current `resource_a` value and `mutex_a` owner.  Acquiring a held mutex is a
no-op (the thread stays blocked at `.lock`). -/
def safeThreadStep (N : Nat) (ra : Int) (ownA : Option Bool) (me : Bool)
    (th : SafeThread) : SafeCell :=
  match th.ph with
  | .lock =>
    match ownA with
    | none => ⟨ra, some me, { th with ph := .report }⟩
    | some o => ⟨ra, some o, th⟩
  | .report =>
    ⟨ra, ownA,
      { th with ph := .load,
                out := if th.i = 0 then th.out ++ [(th.i, ra)] else th.out }⟩
  | .load => ⟨ra, ownA, { th with ph := .store, tmp := ra }⟩
  | .store => ⟨th.tmp + 1, ownA, { th with ph := .sleep }⟩
  | .sleep => ⟨ra, ownA, { th with ph := .unlock }⟩
  | .unlock =>
    ⟨ra, none,
      { th with i := th.i + 1, ph := if th.i + 1 < N then .lock else .done }⟩
  | .done => ⟨ra, ownA, th⟩

/-- One step of the two-worker Safe-Single system: the scheduled thread
(`false` = worker 1, `true` = worker 2) attempts its next action. -/
def safeStep (N : Nat) (s : SafeState) (tid : Bool) : SafeState :=
  if tid then
    let c := safeThreadStep N s.ra s.ownA true s.t2
    { s with ra := c.ra, ownA := c.ownA, t2 := c.th }
  else
    let c := safeThreadStep N s.ra s.ownA false s.t1
    { s with ra := c.ra, ownA := c.ownA, t1 := c.th }

/-- Run the Safe-Single system under a schedule. -/
def safeRun (N : Nat) (s : SafeState) (sched : List Bool) : SafeState :=
  sched.foldl (safeStep N) s

/-- Initial worker state: at the loop head (or already done when `N = 0`). -/
def safeInitThread (N : Nat) : SafeThread :=
  { i := 0, ph := if 0 < N then .lock else .done, tmp := 0, out := [] }

/-- Initial Safe-Single system state with `resource_a = V0`, `mutex_a` free. -/
def safeInit (V0 : Int) (N : Nat) : SafeState :=
  { ra := V0, ownA := none, t1 := safeInitThread N, t2 := safeInitThread N }

/-- Phases at which a `safe_single_access` worker holds `mutex_a`:
everything strictly between a successful `.lock` and the guard release. -/
def safeHolds : SafePh → Bool
  | .lock => false
  | .done => false
  | _ => true

/-- Number of increments of `resource_a` the worker has completed:
one per finished iteration, plus one if the store of the current iteration
has already happened (phases `.sleep` and `.unlock`). -/
def safeIncrDone (th : SafeThread) : Nat :=
  th.i + (if th.ph = .sleep ∨ th.ph = .unlock then 1 else 0)

/-- Per-thread invariant of the Safe-Single system: lock ownership matches the
phase, the loaded value is still current at `.store` (mutual exclusion makes
the read-modify-write effectively atomic), the loop index is in range, and the
report list has an entry exactly when iteration 0 has passed its report point,
always recorded at iteration 0. -/
def safeThInv (N : Nat) (ra : Int) (ownA : Option Bool) (me : Bool)
    (th : SafeThread) : Prop :=
  (safeHolds th.ph = true ↔ ownA = some me) ∧
  (th.ph = .store → th.tmp = ra) ∧
  (th.ph = .done → th.i = N) ∧
  (th.ph ≠ .done → th.i < N) ∧
  (∀ e ∈ th.out, e.1 = 0) ∧
  th.out.length =
    (if th.i = 0 ∧ (th.ph = .lock ∨ th.ph = .report) then 0
     else if N = 0 then 0 else 1)

/-- Global invariant: `resource_a` equals the initial value plus all completed
increments, and both threads satisfy their local invariant. -/
def safeInv (V0 : Int) (N : Nat) (s : SafeState) : Prop :=
  s.ra = V0 + safeIncrDone s.t1 + safeIncrDone s.t2 ∧
  safeThInv N s.ra s.ownA false s.t1 ∧
  safeThInv N s.ra s.ownA true s.t2

lemma some_not_ne (b : Bool) : (some b : Option Bool) ≠ some (!b) := by
  cases b <;> simp

/-- A single thread step preserves both threads' local invariants and changes
`resource_a` by exactly the number of increments it completes. -/
lemma safeThreadStep_inv {N : Nat} {ra : Int} {ownA : Option Bool} {me : Bool}
    {th oth : SafeThread}
    (hth : safeThInv N ra ownA me th) (hoth : safeThInv N ra ownA (!me) oth) :
    safeThInv N (safeThreadStep N ra ownA me th).ra
      (safeThreadStep N ra ownA me th).ownA me (safeThreadStep N ra ownA me th).th ∧
    safeThInv N (safeThreadStep N ra ownA me th).ra
      (safeThreadStep N ra ownA me th).ownA (!me) oth ∧
    (safeThreadStep N ra ownA me th).ra + (safeIncrDone th : Int)
      = ra + (safeIncrDone (safeThreadStep N ra ownA me th).th : Int) := by
  obtain ⟨hHold, hTmp, hDone, hLt, hOut0, hOutLen⟩ := hth
  obtain ⟨oHold, oTmp, oDone, oLt, oOut0, oOutLen⟩ := hoth
  cases hph : th.ph with
  | lock =>
    cases hA : ownA with
    | none =>
      have hOthNot : safeHolds oth.ph = false := by
        cases h : safeHolds oth.ph
        · rfl
        · exact absurd (oHold.mp h) (by simp [hA])
      simp only [safeThreadStep, hph, hA]
      refine ⟨?_, ?_, ?_⟩
      · refine ⟨by simp [safeHolds], by simp, by simp, ?_, ?_, ?_⟩
        · intro _
          exact hLt (by simp [hph])
        · exact hOut0
        · have := hOutLen
          simp [hph] at this
          simpa using this
      · refine ⟨?_, oTmp, oDone, oLt, oOut0, oOutLen⟩
        constructor
        · intro hh
          exact absurd hh (by simp [hOthNot])
        · intro hh
          exact absurd hh (some_not_ne me)
      · simp [safeIncrDone, hph]
    | some o =>
      simp only [safeThreadStep, hph, hA]
      rw [← hA]
      exact ⟨⟨hHold, hTmp, hDone, hLt, hOut0, hOutLen⟩,
        ⟨oHold, oTmp, oDone, oLt, oOut0, oOutLen⟩, trivial⟩
  | report =>
    have hOwn : ownA = some me := hHold.mp (by simp [hph, safeHolds])
    simp only [safeThreadStep, hph]
    refine ⟨?_, ?_, ?_⟩
    · refine ⟨by simp [safeHolds, hOwn], by simp, by simp, ?_, ?_, ?_⟩
      · intro _
        exact hLt (by simp [hph])
      · intro e he
        by_cases hi : th.i = 0
        · simp [hi] at he
          rcases he with he | he
          · exact hOut0 e he
          · simp [he]
        · simp [hi] at he
          exact hOut0 e he
      · have hN0 : N ≠ 0 := by
          have := hLt (by simp [hph])
          omega
        have := hOutLen
        simp [hph, hN0] at this
        by_cases hi : th.i = 0
        · simp [hi] at this
          simp [hi, hN0, this]
        · simp [hi] at this
          simp [hi, hN0, this]
    · exact ⟨oHold, oTmp, oDone, oLt, oOut0, oOutLen⟩
    · simp [safeIncrDone, hph]
  | load =>
    have hOwn : ownA = some me := hHold.mp (by simp [hph, safeHolds])
    simp only [safeThreadStep, hph]
    refine ⟨?_, ?_, ?_⟩
    · refine ⟨by simp [safeHolds, hOwn], by simp, by simp, ?_, hOut0, ?_⟩
      · intro _
        exact hLt (by simp [hph])
      · have := hOutLen
        simp [hph] at this
        simpa using this
    · exact ⟨oHold, oTmp, oDone, oLt, oOut0, oOutLen⟩
    · simp [safeIncrDone, hph]
  | store =>
    have hOwn : ownA = some me := hHold.mp (by simp [hph, safeHolds])
    have hTmpEq : th.tmp = ra := hTmp hph
    have hOthNot : safeHolds oth.ph = false := by
      cases h : safeHolds oth.ph
      · rfl
      · have := oHold.mp h
        rw [hOwn] at this
        exact absurd this (some_not_ne me)
    simp only [safeThreadStep, hph]
    refine ⟨?_, ?_, ?_⟩
    · refine ⟨by simp [safeHolds, hOwn], by simp, by simp, ?_, hOut0, ?_⟩
      · intro _
        exact hLt (by simp [hph])
      · have := hOutLen
        simp [hph] at this
        simpa using this
    · refine ⟨oHold, ?_, oDone, oLt, oOut0, oOutLen⟩
      intro hsto
      exact absurd (show safeHolds oth.ph = true by simp [hsto, safeHolds])
        (by simp [hOthNot])
    · have h1 : safeIncrDone th = th.i := by simp [safeIncrDone, hph]
      have h2 : safeIncrDone { th with ph := SafePh.sleep } = th.i + 1 := by
        simp [safeIncrDone]
      rw [h1, h2, hTmpEq]
      push_cast
      ring
  | sleep =>
    have hOwn : ownA = some me := hHold.mp (by simp [hph, safeHolds])
    simp only [safeThreadStep, hph]
    refine ⟨?_, ?_, ?_⟩
    · refine ⟨by simp [safeHolds, hOwn], by simp, by simp, ?_, hOut0, ?_⟩
      · intro _
        exact hLt (by simp [hph])
      · have := hOutLen
        simp [hph] at this
        simpa using this
    · exact ⟨oHold, oTmp, oDone, oLt, oOut0, oOutLen⟩
    · simp [safeIncrDone, hph]
  | unlock =>
    have hOwn : ownA = some me := hHold.mp (by simp [hph, safeHolds])
    have hiN : th.i < N := hLt (by simp [hph])
    have hN0 : N ≠ 0 := by omega
    have hOthNot : safeHolds oth.ph = false := by
      cases h : safeHolds oth.ph
      · rfl
      · have := oHold.mp h
        rw [hOwn] at this
        exact absurd this (some_not_ne me)
    simp only [safeThreadStep, hph]
    refine ⟨?_, ?_, ?_⟩
    · refine ⟨?_, ?_, ?_, ?_, hOut0, ?_⟩
      · by_cases hlt : th.i + 1 < N <;> simp [hlt, safeHolds]
      · by_cases hlt : th.i + 1 < N <;> simp [hlt]
      · by_cases hlt : th.i + 1 < N
        · simp [hlt]
        · simp [hlt]
          omega
      · by_cases hlt : th.i + 1 < N
        · simp [hlt]
        · simp [hlt]
      · have := hOutLen
        simp [hph, hN0] at this
        by_cases hlt : th.i + 1 < N <;> simp [hlt, hN0, this]
    · refine ⟨?_, oTmp, oDone, oLt, oOut0, oOutLen⟩
      constructor
      · intro hh
        exact absurd hh (by simp [hOthNot])
      · intro hh
        exact absurd hh (by simp)
    · have h1 : safeIncrDone th = th.i + 1 := by simp [safeIncrDone, hph]
      have h2 : safeIncrDone
          { th with i := th.i + 1, ph := if th.i + 1 < N then SafePh.lock else SafePh.done }
          = th.i + 1 := by
        by_cases hlt : th.i + 1 < N <;> simp [safeIncrDone, hlt]
      rw [h1, h2]
  | done =>
    simp only [safeThreadStep, hph]
    exact ⟨⟨hHold, hTmp, hDone, hLt, hOut0, hOutLen⟩,
      ⟨oHold, oTmp, oDone, oLt, oOut0, oOutLen⟩, trivial⟩

lemma safeStep_false (N : Nat) (s : SafeState) :
    safeStep N s false =
      { s with ra := (safeThreadStep N s.ra s.ownA false s.t1).ra,
               ownA := (safeThreadStep N s.ra s.ownA false s.t1).ownA,
               t1 := (safeThreadStep N s.ra s.ownA false s.t1).th } := rfl

lemma safeStep_true (N : Nat) (s : SafeState) :
    safeStep N s true =
      { s with ra := (safeThreadStep N s.ra s.ownA true s.t2).ra,
               ownA := (safeThreadStep N s.ra s.ownA true s.t2).ownA,
               t2 := (safeThreadStep N s.ra s.ownA true s.t2).th } := rfl

/-- The global Safe-Single invariant is preserved by every step. -/
lemma safeStep_inv {V0 : Int} {N : Nat} {s : SafeState} (h : safeInv V0 N s)
    (tid : Bool) : safeInv V0 N (safeStep N s tid) := by
  obtain ⟨hra, h1, h2⟩ := h
  cases tid
  · obtain ⟨k1, k2, k3⟩ :=
      safeThreadStep_inv h1 (show safeThInv N s.ra s.ownA (!false) s.t2 from h2)
    rw [safeStep_false]
    refine ⟨?_, k1, k2⟩
    show (safeThreadStep N s.ra s.ownA false s.t1).ra
      = V0 + (safeIncrDone (safeThreadStep N s.ra s.ownA false s.t1).th : Int)
          + (safeIncrDone s.t2 : Int)
    omega
  · obtain ⟨k1, k2, k3⟩ :=
      safeThreadStep_inv h2 (show safeThInv N s.ra s.ownA (!true) s.t1 from h1)
    rw [safeStep_true]
    refine ⟨?_, k2, k1⟩
    show (safeThreadStep N s.ra s.ownA true s.t2).ra
      = V0 + (safeIncrDone s.t1 : Int)
          + (safeIncrDone (safeThreadStep N s.ra s.ownA true s.t2).th : Int)
    omega

/-- The global Safe-Single invariant holds after any schedule. -/
lemma safeRun_inv {V0 : Int} {N : Nat} {s : SafeState} (h : safeInv V0 N s)
    (sched : List Bool) : safeInv V0 N (safeRun N s sched) := by
  induction sched generalizing s with
  | nil => exact h
  | cons x xs ih => exact ih (safeStep_inv h x)

/-- The initial Safe-Single state satisfies the invariant. -/
lemma safeInit_inv (V0 : Int) (N : Nat) : safeInv V0 N (safeInit V0 N) := by
  rcases Nat.eq_zero_or_pos N with hN | hN
  · subst hN
    refine ⟨by simp [safeInit, safeInitThread, safeIncrDone], ?_, ?_⟩ <;>
      exact ⟨by simp [safeInit, safeInitThread, safeHolds], by simp [safeInit, safeInitThread],
        by simp [safeInit, safeInitThread], by simp [safeInit, safeInitThread],
        by simp [safeInit, safeInitThread], by simp [safeInit, safeInitThread]⟩
  · refine ⟨by simp [safeInit, safeInitThread, safeIncrDone, hN], ?_, ?_⟩ <;>
      exact ⟨by simp [safeInit, safeInitThread, safeHolds, hN], by simp [safeInit, safeInitThread, hN],
        by simp [safeInit, safeInitThread, hN], by simpa [safeInit, safeInitThread, hN] using hN,
        by simp [safeInit, safeInitThread], by simp [safeInit, safeInitThread, hN]⟩

/-- Schedule that lets worker 1 finish its single iteration, then worker 2. -/
def safeSched12 : List Bool :=
  [false, false, false, false, false, false, true, true, true, true, true, true]

/-- C1: For the Safe-Single strategy with initial Resource A value `V0` and two
workers each running `N` iterations (`N ≥ 0`), every execution in which both
workers complete ends with `resource_a = V0 + 2*N` exactly: each iteration
increments Resource A by exactly 1 under `mutex_a`, so no updates are lost. -/
theorem safe_single_additive (V0 : Int) (N : Nat) (sched : List Bool)
    (h1 : (safeRun N (safeInit V0 N) sched).t1.ph = SafePh.done)
    (h2 : (safeRun N (safeInit V0 N) sched).t2.ph = SafePh.done) :
    (safeRun N (safeInit V0 N) sched).ra = V0 + 2 * N := by
  obtain ⟨hra, ⟨_, _, hd1, _, _, _⟩, ⟨_, _, hd2, _, _, _⟩⟩ :=
    safeRun_inv (safeInit_inv V0 N) sched
  have e1 : safeIncrDone (safeRun N (safeInit V0 N) sched).t1 = N := by
    simp [safeIncrDone, h1, hd1 h1]
  have e2 : safeIncrDone (safeRun N (safeInit V0 N) sched).t2 = N := by
    simp [safeIncrDone, h2, hd2 h2]
  rw [hra, e1, e2]
  push_cast
  ring

/-- C1 witness: with `V0 = 100`, `N = 1` and a concrete completing schedule,
both workers finish and `resource_a = 100 + 2 * 1`. -/
theorem safe_single_additive_witness :
    (safeRun 1 (safeInit 100 1) safeSched12).t1.ph = SafePh.done ∧
    (safeRun 1 (safeInit 100 1) safeSched12).t2.ph = SafePh.done ∧
    (safeRun 1 (safeInit 100 1) safeSched12).ra = 100 + 2 * 1 :=
  ⟨by decide, by decide,
    safe_single_additive 100 1 safeSched12 (by decide) (by decide)⟩

/-- C7 counterexample: the claim says the sub-millisecond sleep happens between
iterations outside the critical section, with `mutex_a` not held.  In the code
the `sleep_for` is the last statement inside the loop body, before the
`lock_guard` goes out of scope: after four steps of worker 1 (lock, report,
load, store) the worker is at its sleep while still owning `mutex_a`. -/
theorem safe_single_sleeps_holding_lock :
    (safeRun 1 (safeInit 100 1) [false, false, false, false]).t1.ph = SafePh.sleep ∧
    (safeRun 1 (safeInit 100 1) [false, false, false, false]).ownA = some false := by
  decide

/-- C7 (amended): in the Safe-Single strategy the sleep occurs at the end of
each iteration still inside the critical section: whenever a worker is at its
sleep statement it holds `mutex_a`; the lock is released only afterwards, when
the iteration's scope ends (so the additivity guarantee is unaffected). -/
theorem safe_single_sleep_inside_critical_section (V0 : Int) (N : Nat)
    (sched : List Bool) :
    ((safeRun N (safeInit V0 N) sched).t1.ph = SafePh.sleep →
      (safeRun N (safeInit V0 N) sched).ownA = some false) ∧
    ((safeRun N (safeInit V0 N) sched).t2.ph = SafePh.sleep →
      (safeRun N (safeInit V0 N) sched).ownA = some true) := by
  obtain ⟨_, ⟨h1Hold, _⟩, ⟨h2Hold, _⟩⟩ := safeRun_inv (safeInit_inv V0 N) sched
  exact ⟨fun h => h1Hold.mp (by simp [h, safeHolds]),
    fun h => h2Hold.mp (by simp [h, safeHolds])⟩

/-- C7 witness: concrete schedules reaching the sleep point of worker 1
(resp. worker 2), at which that worker owns `mutex_a`. -/
theorem safe_single_sleep_inside_critical_section_witness :
    (safeRun 1 (safeInit 100 1) [false, false, false, false]).ownA = some false ∧
    (safeRun 1 (safeInit 100 1) [true, true, true, true]).ownA = some true :=
  ⟨(safe_single_sleep_inside_critical_section 100 1 [false, false, false, false]).1
      (by decide),
   (safe_single_sleep_inside_critical_section 100 1 [true, true, true, true]).2
      (by decide)⟩

/-- C8: in the Safe-Single strategy each worker emits its report (worker id and
pre-increment value of Resource A) on the first iteration only: in every
completed execution a worker's report list has exactly one entry when `N ≥ 1`
and none when `N = 0`, and every recorded report was made at iteration 0. -/
theorem safe_single_reports_first_iteration_only (V0 : Int) (N : Nat)
    (sched : List Bool)
    (h1 : (safeRun N (safeInit V0 N) sched).t1.ph = SafePh.done)
    (h2 : (safeRun N (safeInit V0 N) sched).t2.ph = SafePh.done) :
    ((safeRun N (safeInit V0 N) sched).t1.out.length = if N = 0 then 0 else 1) ∧
    ((safeRun N (safeInit V0 N) sched).t2.out.length = if N = 0 then 0 else 1) ∧
    (∀ e ∈ (safeRun N (safeInit V0 N) sched).t1.out, e.1 = 0) ∧
    (∀ e ∈ (safeRun N (safeInit V0 N) sched).t2.out, e.1 = 0) := by
  obtain ⟨_, ⟨_, _, _, _, hz1, hl1⟩, ⟨_, _, _, _, hz2, hl2⟩⟩ :=
    safeRun_inv (safeInit_inv V0 N) sched
  refine ⟨?_, ?_, hz1, hz2⟩
  · rw [hl1]
    simp [h1]
  · rw [hl2]
    simp [h2]

/-- C8 witness: with `N = 1` and a concrete completing schedule, worker 1
finishes with exactly one report, recorded at iteration 0; with `N = 0` both
workers are done immediately and nothing is reported. -/
theorem safe_single_reports_first_iteration_only_witness :
    (safeRun 1 (safeInit 100 1) safeSched12).t1.ph = SafePh.done ∧
    ((safeRun 1 (safeInit 100 1) safeSched12).t1.out.length
      = if 1 = 0 then 0 else 1) ∧
    (∀ e ∈ (safeRun 1 (safeInit 100 1) safeSched12).t1.out, e.1 = 0) ∧
    ((safeRun 0 (safeInit 100 0) []).t1.out.length = if 0 = 0 then 0 else 1) :=
  ⟨by decide,
   (safe_single_reports_first_iteration_only 100 1 safeSched12
      (by decide) (by decide)).1,
   (safe_single_reports_first_iteration_only 100 1 safeSched12
      (by decide) (by decide)).2.2.1,
   (safe_single_reports_first_iteration_only 100 0 []
      (by decide) (by decide)).1⟩

/-! ## Ordered-Dual strategy: `ordered_lock_access` (src/main.cpp lines 88-104)

Loop body: `lock_guard lock_a(mutex_a)`; `lock_guard lock_b(mutex_b)`
(always A first, then B); if `i == 0` print; `resource_a += 1`;
`resource_b += 1`; `sleep_for(10us)`; the guards release `mutex_b` first,
then `mutex_a` (reverse construction order), at the end of the iteration. -/

/-- Program counter inside one iteration of `ordered_lock_access`. -/
inductive OrdPh
  | lockA
  | lockB
  | report
  | loadA
  | storeA
  | loadB
  | storeB
  | sleep
  | unlockB
  | unlockA
  | done
  deriving DecidableEq

/-- Local state of one worker running `ordered_lock_access`: loop index,
program counter, load register, and the iterations at which it reported. -/
structure OrdThread where
  i : Nat
  ph : OrdPh
  tmp : Int
  out : List Nat
  deriving DecidableEq

/-- Shared state of the Ordered-Dual system. -/
structure OrdState where
  ra : Int
  rb : Int
  ownA : Option Bool
  ownB : Option Bool
  t1 : OrdThread
  t2 : OrdThread
  deriving DecidableEq

/-- Result of one thread-local step of the Ordered-Dual system. -/
structure OrdCell where
  ra : Int
  rb : Int
  ownA : Option Bool
  ownB : Option Bool
  th : OrdThread
  deriving DecidableEq

/-- One atomic step of `ordered_lock_access` for thread `me`: acquire `mutex_a`
first, then `mutex_b`; increment both resources (each a separate load/store);
sleep; release B then A.  Acquiring a held mutex is a blocked no-op. -/
def ordThreadStep (N : Nat) (ra rb : Int) (ownA ownB : Option Bool) (me : Bool)
    (th : OrdThread) : OrdCell :=
  match th.ph with
  | .lockA =>
    match ownA with
    | none => ⟨ra, rb, some me, ownB, { th with ph := .lockB }⟩
    | some o => ⟨ra, rb, some o, ownB, th⟩
  | .lockB =>
    match ownB with
    | none => ⟨ra, rb, ownA, some me, { th with ph := .report }⟩
    | some o => ⟨ra, rb, ownA, some o, th⟩
  | .report =>
    ⟨ra, rb, ownA, ownB,
      { th with ph := .loadA,
                out := if th.i = 0 then th.out ++ [th.i] else th.out }⟩
  | .loadA => ⟨ra, rb, ownA, ownB, { th with ph := .storeA, tmp := ra }⟩
  | .storeA => ⟨th.tmp + 1, rb, ownA, ownB, { th with ph := .loadB }⟩
  | .loadB => ⟨ra, rb, ownA, ownB, { th with ph := .storeB, tmp := rb }⟩
  | .storeB => ⟨ra, th.tmp + 1, ownA, ownB, { th with ph := .sleep }⟩
  | .sleep => ⟨ra, rb, ownA, ownB, { th with ph := .unlockB }⟩
  | .unlockB => ⟨ra, rb, ownA, none, { th with ph := .unlockA }⟩
  | .unlockA =>
    ⟨ra, rb, none, ownB,
      { th with i := th.i + 1, ph := if th.i + 1 < N then .lockA else .done }⟩
  | .done => ⟨ra, rb, ownA, ownB, th⟩

/-- One step of the two-worker Ordered-Dual system. -/
def ordStep (N : Nat) (s : OrdState) (tid : Bool) : OrdState :=
  if tid then
    let c := ordThreadStep N s.ra s.rb s.ownA s.ownB true s.t2
    { s with ra := c.ra, rb := c.rb, ownA := c.ownA, ownB := c.ownB, t2 := c.th }
  else
    let c := ordThreadStep N s.ra s.rb s.ownA s.ownB false s.t1
    { s with ra := c.ra, rb := c.rb, ownA := c.ownA, ownB := c.ownB, t1 := c.th }

/-- Run the Ordered-Dual system under a schedule. -/
def ordRun (N : Nat) (s : OrdState) (sched : List Bool) : OrdState :=
  sched.foldl (ordStep N) s

/-- Initial Ordered-Dual worker state. -/
def ordInitThread (N : Nat) : OrdThread :=
  { i := 0, ph := if 0 < N then .lockA else .done, tmp := 0, out := [] }

/-- Initial Ordered-Dual system state with `resource_a = V0A`,
`resource_b = V0B`, both mutexes free. -/
def ordInit (V0A V0B : Int) (N : Nat) : OrdState :=
  { ra := V0A, rb := V0B, ownA := none, ownB := none,
    t1 := ordInitThread N, t2 := ordInitThread N }

/-- Phases at which an `ordered_lock_access` worker holds `mutex_a`. -/
def ordHoldsA : OrdPh → Bool
  | .lockA => false
  | .done => false
  | _ => true

/-- Phases at which an `ordered_lock_access` worker holds `mutex_b`. -/
def ordHoldsB : OrdPh → Bool
  | .report => true
  | .loadA => true
  | .storeA => true
  | .loadB => true
  | .storeB => true
  | .sleep => true
  | .unlockB => true
  | _ => false

/-- Completed increments of `resource_a` by an Ordered-Dual worker. -/
def ordAIncr (th : OrdThread) : Nat :=
  th.i + (if th.ph = .loadB ∨ th.ph = .storeB ∨ th.ph = .sleep
             ∨ th.ph = .unlockB ∨ th.ph = .unlockA then 1 else 0)

/-- Completed increments of `resource_b` by an Ordered-Dual worker. -/
def ordBIncr (th : OrdThread) : Nat :=
  th.i + (if th.ph = .sleep ∨ th.ph = .unlockB ∨ th.ph = .unlockA then 1 else 0)

/-- Per-thread invariant of the Ordered-Dual system. -/
def ordThInv (N : Nat) (ra rb : Int) (ownA ownB : Option Bool) (me : Bool)
    (th : OrdThread) : Prop :=
  (ordHoldsA th.ph = true ↔ ownA = some me) ∧
  (ordHoldsB th.ph = true ↔ ownB = some me) ∧
  (th.ph = .storeA → th.tmp = ra) ∧
  (th.ph = .storeB → th.tmp = rb) ∧
  (th.ph = .done → th.i = N) ∧
  (th.ph ≠ .done → th.i < N)

/-- Global invariant of the Ordered-Dual system. -/
def ordInv (V0A V0B : Int) (N : Nat) (s : OrdState) : Prop :=
  s.ra = V0A + ordAIncr s.t1 + ordAIncr s.t2 ∧
  s.rb = V0B + ordBIncr s.t1 + ordBIncr s.t2 ∧
  ordThInv N s.ra s.rb s.ownA s.ownB false s.t1 ∧
  ordThInv N s.ra s.rb s.ownA s.ownB true s.t2

/-- A single Ordered-Dual thread step preserves both local invariants and
changes each resource by exactly the increments it completes. -/
lemma ordThreadStep_inv {N : Nat} {ra rb : Int} {ownA ownB : Option Bool}
    {me : Bool} {th oth : OrdThread}
    (hth : ordThInv N ra rb ownA ownB me th)
    (hoth : ordThInv N ra rb ownA ownB (!me) oth) :
    ordThInv N (ordThreadStep N ra rb ownA ownB me th).ra
      (ordThreadStep N ra rb ownA ownB me th).rb
      (ordThreadStep N ra rb ownA ownB me th).ownA
      (ordThreadStep N ra rb ownA ownB me th).ownB me
      (ordThreadStep N ra rb ownA ownB me th).th ∧
    ordThInv N (ordThreadStep N ra rb ownA ownB me th).ra
      (ordThreadStep N ra rb ownA ownB me th).rb
      (ordThreadStep N ra rb ownA ownB me th).ownA
      (ordThreadStep N ra rb ownA ownB me th).ownB (!me) oth ∧
    (ordThreadStep N ra rb ownA ownB me th).ra + (ordAIncr th : Int)
      = ra + (ordAIncr (ordThreadStep N ra rb ownA ownB me th).th : Int) ∧
    (ordThreadStep N ra rb ownA ownB me th).rb + (ordBIncr th : Int)
      = rb + (ordBIncr (ordThreadStep N ra rb ownA ownB me th).th : Int) := by
  obtain ⟨hHoldA, hHoldB, hTmpA, hTmpB, hDone, hLt⟩ := hth
  obtain ⟨oHoldA, oHoldB, oTmpA, oTmpB, oDone, oLt⟩ := hoth
  cases hph : th.ph with
  | lockA =>
    have hNotB : ¬ ownB = some me := fun hh => by
      simpa [hph, ordHoldsB] using hHoldB.mpr hh
    cases hA : ownA with
    | none =>
      have hOthNotA : ordHoldsA oth.ph = false := by
        cases h : ordHoldsA oth.ph
        · rfl
        · exact absurd (oHoldA.mp h) (by simp [hA])
      simp only [ordThreadStep, hph, hA]
      refine ⟨?_, ?_, ?_, ?_⟩
      · refine ⟨by simp [ordHoldsA], by simp [ordHoldsB, hNotB], by simp, by simp, by simp, ?_⟩
        intro _
        exact hLt (by simp [hph])
      · refine ⟨?_, oHoldB, oTmpA, oTmpB, oDone, oLt⟩
        constructor
        · intro hh
          exact absurd hh (by simp [hOthNotA])
        · intro hh
          exact absurd hh (some_not_ne me)
      · simp [ordAIncr, hph]
      · simp [ordBIncr, hph]
    | some o =>
      simp only [ordThreadStep, hph, hA]
      rw [← hA]
      exact ⟨⟨hHoldA, hHoldB, hTmpA, hTmpB, hDone, hLt⟩,
        ⟨oHoldA, oHoldB, oTmpA, oTmpB, oDone, oLt⟩, trivial, trivial⟩
  | lockB =>
    have hOwnA : ownA = some me := hHoldA.mp (by simp [hph, ordHoldsA])
    cases hB : ownB with
    | none =>
      have hOthNotB : ordHoldsB oth.ph = false := by
        cases h : ordHoldsB oth.ph
        · rfl
        · exact absurd (oHoldB.mp h) (by simp [hB])
      simp only [ordThreadStep, hph, hB]
      refine ⟨?_, ?_, ?_, ?_⟩
      · refine ⟨by simp [ordHoldsA, hOwnA], by simp [ordHoldsB], by simp, by simp, by simp, ?_⟩
        intro _
        exact hLt (by simp [hph])
      · refine ⟨oHoldA, ?_, oTmpA, oTmpB, oDone, oLt⟩
        constructor
        · intro hh
          exact absurd hh (by simp [hOthNotB])
        · intro hh
          exact absurd hh (some_not_ne me)
      · simp [ordAIncr, hph]
      · simp [ordBIncr, hph]
    | some o =>
      simp only [ordThreadStep, hph, hB]
      rw [← hB]
      exact ⟨⟨hHoldA, hHoldB, hTmpA, hTmpB, hDone, hLt⟩,
        ⟨oHoldA, oHoldB, oTmpA, oTmpB, oDone, oLt⟩, trivial, trivial⟩
  | report =>
    have hOwnA : ownA = some me := hHoldA.mp (by simp [hph, ordHoldsA])
    have hOwnB : ownB = some me := hHoldB.mp (by simp [hph, ordHoldsB])
    simp only [ordThreadStep, hph]
    refine ⟨?_, ?_, ?_, ?_⟩
    · refine ⟨by simp [ordHoldsA, hOwnA], by simp [ordHoldsB, hOwnB], by simp, by simp,
        by simp, ?_⟩
      intro _
      exact hLt (by simp [hph])
    · exact ⟨oHoldA, oHoldB, oTmpA, oTmpB, oDone, oLt⟩
    · simp [ordAIncr, hph]
    · simp [ordBIncr, hph]
  | loadA =>
    have hOwnA : ownA = some me := hHoldA.mp (by simp [hph, ordHoldsA])
    have hOwnB : ownB = some me := hHoldB.mp (by simp [hph, ordHoldsB])
    simp only [ordThreadStep, hph]
    refine ⟨?_, ?_, ?_, ?_⟩
    · refine ⟨by simp [ordHoldsA, hOwnA], by simp [ordHoldsB, hOwnB], by simp, by simp,
        by simp, ?_⟩
      intro _
      exact hLt (by simp [hph])
    · exact ⟨oHoldA, oHoldB, oTmpA, oTmpB, oDone, oLt⟩
    · simp [ordAIncr, hph]
    · simp [ordBIncr, hph]
  | storeA =>
    have hOwnA : ownA = some me := hHoldA.mp (by simp [hph, ordHoldsA])
    have hOwnB : ownB = some me := hHoldB.mp (by simp [hph, ordHoldsB])
    have hTmpEq : th.tmp = ra := hTmpA hph
    have hOthNotA : ordHoldsA oth.ph = false := by
      cases h : ordHoldsA oth.ph
      · rfl
      · have := oHoldA.mp h
        rw [hOwnA] at this
        exact absurd this (some_not_ne me)
    simp only [ordThreadStep, hph]
    refine ⟨?_, ?_, ?_, ?_⟩
    · refine ⟨by simp [ordHoldsA, hOwnA], by simp [ordHoldsB, hOwnB], by simp, by simp,
        by simp, ?_⟩
      intro _
      exact hLt (by simp [hph])
    · refine ⟨oHoldA, oHoldB, ?_, oTmpB, oDone, oLt⟩
      intro hsto
      exact absurd (show ordHoldsA oth.ph = true by simp [hsto, ordHoldsA])
        (by simp [hOthNotA])
    · have h1 : ordAIncr th = th.i := by simp [ordAIncr, hph]
      have h2 : ordAIncr { th with ph := OrdPh.loadB } = th.i + 1 := by
        simp [ordAIncr]
      rw [h1, h2, hTmpEq]
      push_cast
      ring
    · simp [ordBIncr, hph]
  | loadB =>
    have hOwnA : ownA = some me := hHoldA.mp (by simp [hph, ordHoldsA])
    have hOwnB : ownB = some me := hHoldB.mp (by simp [hph, ordHoldsB])
    simp only [ordThreadStep, hph]
    refine ⟨?_, ?_, ?_, ?_⟩
    · refine ⟨by simp [ordHoldsA, hOwnA], by simp [ordHoldsB, hOwnB], by simp, by simp,
        by simp, ?_⟩
      intro _
      exact hLt (by simp [hph])
    · exact ⟨oHoldA, oHoldB, oTmpA, oTmpB, oDone, oLt⟩
    · simp [ordAIncr, hph]
    · simp [ordBIncr, hph]
  | storeB =>
    have hOwnA : ownA = some me := hHoldA.mp (by simp [hph, ordHoldsA])
    have hOwnB : ownB = some me := hHoldB.mp (by simp [hph, ordHoldsB])
    have hTmpEq : th.tmp = rb := hTmpB hph
    have hOthNotB : ordHoldsB oth.ph = false := by
      cases h : ordHoldsB oth.ph
      · rfl
      · have := oHoldB.mp h
        rw [hOwnB] at this
        exact absurd this (some_not_ne me)
    simp only [ordThreadStep, hph]
    refine ⟨?_, ?_, ?_, ?_⟩
    · refine ⟨by simp [ordHoldsA, hOwnA], by simp [ordHoldsB, hOwnB], by simp, by simp,
        by simp, ?_⟩
      intro _
      exact hLt (by simp [hph])
    · refine ⟨oHoldA, oHoldB, oTmpA, ?_, oDone, oLt⟩
      intro hsto
      exact absurd (show ordHoldsB oth.ph = true by simp [hsto, ordHoldsB])
        (by simp [hOthNotB])
    · simp [ordAIncr, hph]
    · have h1 : ordBIncr th = th.i := by simp [ordBIncr, hph]
      have h2 : ordBIncr { th with ph := OrdPh.sleep } = th.i + 1 := by
        simp [ordBIncr]
      rw [h1, h2, hTmpEq]
      push_cast
      ring
  | sleep =>
    have hOwnA : ownA = some me := hHoldA.mp (by simp [hph, ordHoldsA])
    have hOwnB : ownB = some me := hHoldB.mp (by simp [hph, ordHoldsB])
    simp only [ordThreadStep, hph]
    refine ⟨?_, ?_, ?_, ?_⟩
    · refine ⟨by simp [ordHoldsA, hOwnA], by simp [ordHoldsB, hOwnB], by simp, by simp,
        by simp, ?_⟩
      intro _
      exact hLt (by simp [hph])
    · exact ⟨oHoldA, oHoldB, oTmpA, oTmpB, oDone, oLt⟩
    · simp [ordAIncr, hph]
    · simp [ordBIncr, hph]
  | unlockB =>
    have hOwnA : ownA = some me := hHoldA.mp (by simp [hph, ordHoldsA])
    have hOwnB : ownB = some me := hHoldB.mp (by simp [hph, ordHoldsB])
    have hOthNotB : ordHoldsB oth.ph = false := by
      cases h : ordHoldsB oth.ph
      · rfl
      · have := oHoldB.mp h
        rw [hOwnB] at this
        exact absurd this (some_not_ne me)
    simp only [ordThreadStep, hph]
    refine ⟨?_, ?_, ?_, ?_⟩
    · refine ⟨by simp [ordHoldsA, hOwnA], by simp [ordHoldsB], by simp, by simp,
        by simp, ?_⟩
      intro _
      exact hLt (by simp [hph])
    · refine ⟨oHoldA, ?_, oTmpA, oTmpB, oDone, oLt⟩
      constructor
      · intro hh
        exact absurd hh (by simp [hOthNotB])
      · intro hh
        exact absurd hh (by simp)
    · simp [ordAIncr, hph]
    · simp [ordBIncr, hph]
  | unlockA =>
    have hOwnA : ownA = some me := hHoldA.mp (by simp [hph, ordHoldsA])
    have hNotB : ¬ ownB = some me := fun hh => by
      simpa [hph, ordHoldsB] using hHoldB.mpr hh
    have hiN : th.i < N := hLt (by simp [hph])
    have hOthNotA : ordHoldsA oth.ph = false := by
      cases h : ordHoldsA oth.ph
      · rfl
      · have := oHoldA.mp h
        rw [hOwnA] at this
        exact absurd this (some_not_ne me)
    simp only [ordThreadStep, hph]
    refine ⟨?_, ?_, ?_, ?_⟩
    · refine ⟨?_, ?_, ?_, ?_, ?_, ?_⟩
      · by_cases hlt : th.i + 1 < N <;> simp [hlt, ordHoldsA]
      · by_cases hlt : th.i + 1 < N <;> simp [hlt, ordHoldsB, hNotB]
      · by_cases hlt : th.i + 1 < N <;> simp [hlt]
      · by_cases hlt : th.i + 1 < N <;> simp [hlt]
      · by_cases hlt : th.i + 1 < N
        · simp [hlt]
        · simp [hlt]
          omega
      · by_cases hlt : th.i + 1 < N
        · simp [hlt]
        · simp [hlt]
    · refine ⟨?_, oHoldB, oTmpA, oTmpB, oDone, oLt⟩
      constructor
      · intro hh
        exact absurd hh (by simp [hOthNotA])
      · intro hh
        exact absurd hh (by simp)
    · have h1 : ordAIncr th = th.i + 1 := by simp [ordAIncr, hph]
      have h2 : ordAIncr
          { th with i := th.i + 1, ph := if th.i + 1 < N then OrdPh.lockA else OrdPh.done }
          = th.i + 1 := by
        by_cases hlt : th.i + 1 < N <;> simp [ordAIncr, hlt]
      rw [h1, h2]
    · have h1 : ordBIncr th = th.i + 1 := by simp [ordBIncr, hph]
      have h2 : ordBIncr
          { th with i := th.i + 1, ph := if th.i + 1 < N then OrdPh.lockA else OrdPh.done }
          = th.i + 1 := by
        by_cases hlt : th.i + 1 < N <;> simp [ordBIncr, hlt]
      rw [h1, h2]
  | done =>
    simp only [ordThreadStep, hph]
    exact ⟨⟨hHoldA, hHoldB, hTmpA, hTmpB, hDone, hLt⟩,
      ⟨oHoldA, oHoldB, oTmpA, oTmpB, oDone, oLt⟩, trivial, trivial⟩

lemma ordStep_false (N : Nat) (s : OrdState) :
    ordStep N s false =
      { s with ra := (ordThreadStep N s.ra s.rb s.ownA s.ownB false s.t1).ra,
               rb := (ordThreadStep N s.ra s.rb s.ownA s.ownB false s.t1).rb,
               ownA := (ordThreadStep N s.ra s.rb s.ownA s.ownB false s.t1).ownA,
               ownB := (ordThreadStep N s.ra s.rb s.ownA s.ownB false s.t1).ownB,
               t1 := (ordThreadStep N s.ra s.rb s.ownA s.ownB false s.t1).th } := rfl

lemma ordStep_true (N : Nat) (s : OrdState) :
    ordStep N s true =
      { s with ra := (ordThreadStep N s.ra s.rb s.ownA s.ownB true s.t2).ra,
               rb := (ordThreadStep N s.ra s.rb s.ownA s.ownB true s.t2).rb,
               ownA := (ordThreadStep N s.ra s.rb s.ownA s.ownB true s.t2).ownA,
               ownB := (ordThreadStep N s.ra s.rb s.ownA s.ownB true s.t2).ownB,
               t2 := (ordThreadStep N s.ra s.rb s.ownA s.ownB true s.t2).th } := rfl

/-- The global Ordered-Dual invariant is preserved by every step. -/
lemma ordStep_inv {V0A V0B : Int} {N : Nat} {s : OrdState}
    (h : ordInv V0A V0B N s) (tid : Bool) : ordInv V0A V0B N (ordStep N s tid) := by
  obtain ⟨hra, hrb, h1, h2⟩ := h
  cases tid
  · obtain ⟨k1, k2, k3, k4⟩ :=
      ordThreadStep_inv h1
        (show ordThInv N s.ra s.rb s.ownA s.ownB (!false) s.t2 from h2)
    rw [ordStep_false]
    refine ⟨?_, ?_, k1, k2⟩
    · show (ordThreadStep N s.ra s.rb s.ownA s.ownB false s.t1).ra
        = V0A + (ordAIncr (ordThreadStep N s.ra s.rb s.ownA s.ownB false s.t1).th : Int)
            + (ordAIncr s.t2 : Int)
      omega
    · show (ordThreadStep N s.ra s.rb s.ownA s.ownB false s.t1).rb
        = V0B + (ordBIncr (ordThreadStep N s.ra s.rb s.ownA s.ownB false s.t1).th : Int)
            + (ordBIncr s.t2 : Int)
      omega
  · obtain ⟨k1, k2, k3, k4⟩ :=
      ordThreadStep_inv h2
        (show ordThInv N s.ra s.rb s.ownA s.ownB (!true) s.t1 from h1)
    rw [ordStep_true]
    refine ⟨?_, ?_, k2, k1⟩
    · show (ordThreadStep N s.ra s.rb s.ownA s.ownB true s.t2).ra
        = V0A + (ordAIncr s.t1 : Int)
            + (ordAIncr (ordThreadStep N s.ra s.rb s.ownA s.ownB true s.t2).th : Int)
      omega
    · show (ordThreadStep N s.ra s.rb s.ownA s.ownB true s.t2).rb
        = V0B + (ordBIncr s.t1 : Int)
            + (ordBIncr (ordThreadStep N s.ra s.rb s.ownA s.ownB true s.t2).th : Int)
      omega

/-- The global Ordered-Dual invariant holds after any schedule. -/
lemma ordRun_inv {V0A V0B : Int} {N : Nat} {s : OrdState}
    (h : ordInv V0A V0B N s) (sched : List Bool) :
    ordInv V0A V0B N (ordRun N s sched) := by
  induction sched generalizing s with
  | nil => exact h
  | cons x xs ih => exact ih (ordStep_inv h x)

/-- The initial Ordered-Dual state satisfies the invariant. -/
lemma ordInit_inv (V0A V0B : Int) (N : Nat) :
    ordInv V0A V0B N (ordInit V0A V0B N) := by
  rcases Nat.eq_zero_or_pos N with hN | hN
  · subst hN
    refine ⟨by simp [ordInit, ordInitThread, ordAIncr],
      by simp [ordInit, ordInitThread, ordBIncr], ?_, ?_⟩ <;>
      exact ⟨by simp [ordInit, ordInitThread, ordHoldsA],
        by simp [ordInit, ordInitThread, ordHoldsB],
        by simp [ordInit, ordInitThread], by simp [ordInit, ordInitThread],
        by simp [ordInit, ordInitThread], by simp [ordInit, ordInitThread]⟩
  · refine ⟨by simp [ordInit, ordInitThread, ordAIncr, hN],
      by simp [ordInit, ordInitThread, ordBIncr, hN], ?_, ?_⟩ <;>
      exact ⟨by simp [ordInit, ordInitThread, ordHoldsA, hN],
        by simp [ordInit, ordInitThread, ordHoldsB, hN],
        by simp [ordInit, ordInitThread, hN], by simp [ordInit, ordInitThread, hN],
        by simp [ordInit, ordInitThread, hN],
        by simpa [ordInit, ordInitThread, hN] using hN⟩

/-! ## Scoped-Dual strategy: `scoped_lock_access` (src/main.cpp lines 70-85)

Loop body: `std::scoped_lock lock(mutex_a, mutex_b)` — the deadlock-avoiding
dual acquisition of `std::scoped_lock` is modelled as a single atomic
acquire-both step, enabled only when both mutexes are free (all-or-nothing);
if `i == 0` print; `resource_a += 1`; `resource_b += 1`; `sleep_for(10us)`;
the `scoped_lock` destructor releases both mutexes at the end of the
iteration (modelled as one atomic release-both step). -/

/-- Program counter inside one iteration of `scoped_lock_access`. -/
inductive ScpPh
  | lockBoth
  | report
  | loadA
  | storeA
  | loadB
  | storeB
  | sleep
  | unlockBoth
  | done
  deriving DecidableEq

/-- Local state of one worker running `scoped_lock_access`. -/
structure ScpThread where
  i : Nat
  ph : ScpPh
  tmp : Int
  out : List Nat
  deriving DecidableEq

/-- Shared state of the Scoped-Dual system. -/
structure ScpState where
  ra : Int
  rb : Int
  ownA : Option Bool
  ownB : Option Bool
  t1 : ScpThread
  t2 : ScpThread
  deriving DecidableEq

/-- Result of one thread-local step of the Scoped-Dual system. -/
structure ScpCell where
  ra : Int
  rb : Int
  ownA : Option Bool
  ownB : Option Bool
  th : ScpThread
  deriving DecidableEq

/-- One atomic step of `scoped_lock_access` for thread `me`.  The
`scoped_lock` acquisition takes both mutexes at once and only when both are
free; otherwise the thread stays blocked at `.lockBoth`. -/
def scpThreadStep (N : Nat) (ra rb : Int) (ownA ownB : Option Bool) (me : Bool)
    (th : ScpThread) : ScpCell :=
  match th.ph with
  | .lockBoth =>
    match ownA, ownB with
    | none, none => ⟨ra, rb, some me, some me, { th with ph := .report }⟩
    | _, _ => ⟨ra, rb, ownA, ownB, th⟩
  | .report =>
    ⟨ra, rb, ownA, ownB,
      { th with ph := .loadA,
                out := if th.i = 0 then th.out ++ [th.i] else th.out }⟩
  | .loadA => ⟨ra, rb, ownA, ownB, { th with ph := .storeA, tmp := ra }⟩
  | .storeA => ⟨th.tmp + 1, rb, ownA, ownB, { th with ph := .loadB }⟩
  | .loadB => ⟨ra, rb, ownA, ownB, { th with ph := .storeB, tmp := rb }⟩
  | .storeB => ⟨ra, th.tmp + 1, ownA, ownB, { th with ph := .sleep }⟩
  | .sleep => ⟨ra, rb, ownA, ownB, { th with ph := .unlockBoth }⟩
  | .unlockBoth =>
    ⟨ra, rb, none, none,
      { th with i := th.i + 1, ph := if th.i + 1 < N then .lockBoth else .done }⟩
  | .done => ⟨ra, rb, ownA, ownB, th⟩

/-- One step of the two-worker Scoped-Dual system. -/
def scpStep (N : Nat) (s : ScpState) (tid : Bool) : ScpState :=
  if tid then
    let c := scpThreadStep N s.ra s.rb s.ownA s.ownB true s.t2
    { s with ra := c.ra, rb := c.rb, ownA := c.ownA, ownB := c.ownB, t2 := c.th }
  else
    let c := scpThreadStep N s.ra s.rb s.ownA s.ownB false s.t1
    { s with ra := c.ra, rb := c.rb, ownA := c.ownA, ownB := c.ownB, t1 := c.th }

/-- Run the Scoped-Dual system under a schedule. -/
def scpRun (N : Nat) (s : ScpState) (sched : List Bool) : ScpState :=
  sched.foldl (scpStep N) s

/-- Initial Scoped-Dual worker state. -/
def scpInitThread (N : Nat) : ScpThread :=
  { i := 0, ph := if 0 < N then .lockBoth else .done, tmp := 0, out := [] }

/-- Initial Scoped-Dual system state with `resource_a = V0A`,
`resource_b = V0B`, both mutexes free. -/
def scpInit (V0A V0B : Int) (N : Nat) : ScpState :=
  { ra := V0A, rb := V0B, ownA := none, ownB := none,
    t1 := scpInitThread N, t2 := scpInitThread N }

/-- Phases at which a `scoped_lock_access` worker holds both mutexes. -/
def scpHolds : ScpPh → Bool
  | .lockBoth => false
  | .done => false
  | _ => true

/-- Completed increments of `resource_a` by a Scoped-Dual worker. -/
def scpAIncr (th : ScpThread) : Nat :=
  th.i + (if th.ph = .loadB ∨ th.ph = .storeB ∨ th.ph = .sleep
             ∨ th.ph = .unlockBoth then 1 else 0)

/-- Completed increments of `resource_b` by a Scoped-Dual worker. -/
def scpBIncr (th : ScpThread) : Nat :=
  th.i + (if th.ph = .sleep ∨ th.ph = .unlockBoth then 1 else 0)

/-- Per-thread invariant of the Scoped-Dual system: the two mutexes are held
together, never one without the other. -/
def scpThInv (N : Nat) (ra rb : Int) (ownA ownB : Option Bool) (me : Bool)
    (th : ScpThread) : Prop :=
  (scpHolds th.ph = true ↔ ownA = some me) ∧
  (scpHolds th.ph = true ↔ ownB = some me) ∧
  (th.ph = .storeA → th.tmp = ra) ∧
  (th.ph = .storeB → th.tmp = rb) ∧
  (th.ph = .done → th.i = N) ∧
  (th.ph ≠ .done → th.i < N)

/-- Global invariant of the Scoped-Dual system. -/
def scpInv (V0A V0B : Int) (N : Nat) (s : ScpState) : Prop :=
  s.ra = V0A + scpAIncr s.t1 + scpAIncr s.t2 ∧
  s.rb = V0B + scpBIncr s.t1 + scpBIncr s.t2 ∧
  scpThInv N s.ra s.rb s.ownA s.ownB false s.t1 ∧
  scpThInv N s.ra s.rb s.ownA s.ownB true s.t2

/-- A single Scoped-Dual thread step preserves both local invariants and
changes each resource by exactly the increments it completes. -/
lemma scpThreadStep_inv {N : Nat} {ra rb : Int} {ownA ownB : Option Bool}
    {me : Bool} {th oth : ScpThread}
    (hth : scpThInv N ra rb ownA ownB me th)
    (hoth : scpThInv N ra rb ownA ownB (!me) oth) :
    scpThInv N (scpThreadStep N ra rb ownA ownB me th).ra
      (scpThreadStep N ra rb ownA ownB me th).rb
      (scpThreadStep N ra rb ownA ownB me th).ownA
      (scpThreadStep N ra rb ownA ownB me th).ownB me
      (scpThreadStep N ra rb ownA ownB me th).th ∧
    scpThInv N (scpThreadStep N ra rb ownA ownB me th).ra
      (scpThreadStep N ra rb ownA ownB me th).rb
      (scpThreadStep N ra rb ownA ownB me th).ownA
      (scpThreadStep N ra rb ownA ownB me th).ownB (!me) oth ∧
    (scpThreadStep N ra rb ownA ownB me th).ra + (scpAIncr th : Int)
      = ra + (scpAIncr (scpThreadStep N ra rb ownA ownB me th).th : Int) ∧
    (scpThreadStep N ra rb ownA ownB me th).rb + (scpBIncr th : Int)
      = rb + (scpBIncr (scpThreadStep N ra rb ownA ownB me th).th : Int) := by
  obtain ⟨hHoldA, hHoldB, hTmpA, hTmpB, hDone, hLt⟩ := hth
  obtain ⟨oHoldA, oHoldB, oTmpA, oTmpB, oDone, oLt⟩ := hoth
  cases hph : th.ph with
  | lockBoth =>
    cases hA : ownA with
    | none =>
      cases hB : ownB with
      | none =>
        have hOthNot : scpHolds oth.ph = false := by
          cases h : scpHolds oth.ph
          · rfl
          · exact absurd (oHoldA.mp h) (by simp [hA])
        simp only [scpThreadStep, hph, hA, hB]
        refine ⟨?_, ?_, ?_, ?_⟩
        · refine ⟨by simp [scpHolds], by simp [scpHolds], by simp, by simp, by simp, ?_⟩
          intro _
          exact hLt (by simp [hph])
        · refine ⟨?_, ?_, oTmpA, oTmpB, oDone, oLt⟩ <;>
            exact ⟨fun hh => absurd hh (by simp [hOthNot]),
              fun hh => absurd hh (some_not_ne me)⟩
        · simp [scpAIncr, hph]
        · simp [scpBIncr, hph]
      | some o =>
        simp only [scpThreadStep, hph, hA, hB]
        rw [← hA, ← hB]
        exact ⟨⟨hHoldA, hHoldB, hTmpA, hTmpB, hDone, hLt⟩,
          ⟨oHoldA, oHoldB, oTmpA, oTmpB, oDone, oLt⟩, trivial, trivial⟩
    | some o =>
      cases hB : ownB <;>
      · simp only [scpThreadStep, hph, hA, hB]
        rw [← hA, ← hB]
        exact ⟨⟨hHoldA, hHoldB, hTmpA, hTmpB, hDone, hLt⟩,
          ⟨oHoldA, oHoldB, oTmpA, oTmpB, oDone, oLt⟩, trivial, trivial⟩
  | report =>
    have hOwnA : ownA = some me := hHoldA.mp (by simp [hph, scpHolds])
    have hOwnB : ownB = some me := hHoldB.mp (by simp [hph, scpHolds])
    simp only [scpThreadStep, hph]
    refine ⟨?_, ?_, ?_, ?_⟩
    · refine ⟨by simp [scpHolds, hOwnA], by simp [scpHolds, hOwnB], by simp, by simp,
        by simp, ?_⟩
      intro _
      exact hLt (by simp [hph])
    · exact ⟨oHoldA, oHoldB, oTmpA, oTmpB, oDone, oLt⟩
    · simp [scpAIncr, hph]
    · simp [scpBIncr, hph]
  | loadA =>
    have hOwnA : ownA = some me := hHoldA.mp (by simp [hph, scpHolds])
    have hOwnB : ownB = some me := hHoldB.mp (by simp [hph, scpHolds])
    simp only [scpThreadStep, hph]
    refine ⟨?_, ?_, ?_, ?_⟩
    · refine ⟨by simp [scpHolds, hOwnA], by simp [scpHolds, hOwnB], by simp, by simp,
        by simp, ?_⟩
      intro _
      exact hLt (by simp [hph])
    · exact ⟨oHoldA, oHoldB, oTmpA, oTmpB, oDone, oLt⟩
    · simp [scpAIncr, hph]
    · simp [scpBIncr, hph]
  | storeA =>
    have hOwnA : ownA = some me := hHoldA.mp (by simp [hph, scpHolds])
    have hOwnB : ownB = some me := hHoldB.mp (by simp [hph, scpHolds])
    have hTmpEq : th.tmp = ra := hTmpA hph
    have hOthNot : scpHolds oth.ph = false := by
      cases h : scpHolds oth.ph
      · rfl
      · have := oHoldA.mp h
        rw [hOwnA] at this
        exact absurd this (some_not_ne me)
    simp only [scpThreadStep, hph]
    refine ⟨?_, ?_, ?_, ?_⟩
    · refine ⟨by simp [scpHolds, hOwnA], by simp [scpHolds, hOwnB], by simp, by simp,
        by simp, ?_⟩
      intro _
      exact hLt (by simp [hph])
    · refine ⟨oHoldA, oHoldB, ?_, oTmpB, oDone, oLt⟩
      intro hsto
      exact absurd (show scpHolds oth.ph = true by simp [hsto, scpHolds])
        (by simp [hOthNot])
    · have h1 : scpAIncr th = th.i := by simp [scpAIncr, hph]
      have h2 : scpAIncr { th with ph := ScpPh.loadB } = th.i + 1 := by
        simp [scpAIncr]
      rw [h1, h2, hTmpEq]
      push_cast
      ring
    · simp [scpBIncr, hph]
  | loadB =>
    have hOwnA : ownA = some me := hHoldA.mp (by simp [hph, scpHolds])
    have hOwnB : ownB = some me := hHoldB.mp (by simp [hph, scpHolds])
    simp only [scpThreadStep, hph]
    refine ⟨?_, ?_, ?_, ?_⟩
    · refine ⟨by simp [scpHolds, hOwnA], by simp [scpHolds, hOwnB], by simp, by simp,
        by simp, ?_⟩
      intro _
      exact hLt (by simp [hph])
    · exact ⟨oHoldA, oHoldB, oTmpA, oTmpB, oDone, oLt⟩
    · simp [scpAIncr, hph]
    · simp [scpBIncr, hph]
  | storeB =>
    have hOwnA : ownA = some me := hHoldA.mp (by simp [hph, scpHolds])
    have hOwnB : ownB = some me := hHoldB.mp (by simp [hph, scpHolds])
    have hTmpEq : th.tmp = rb := hTmpB hph
    have hOthNot : scpHolds oth.ph = false := by
      cases h : scpHolds oth.ph
      · rfl
      · have := oHoldB.mp h
        rw [hOwnB] at this
        exact absurd this (some_not_ne me)
    simp only [scpThreadStep, hph]
    refine ⟨?_, ?_, ?_, ?_⟩
    · refine ⟨by simp [scpHolds, hOwnA], by simp [scpHolds, hOwnB], by simp, by simp,
        by simp, ?_⟩
      intro _
      exact hLt (by simp [hph])
    · refine ⟨oHoldA, oHoldB, oTmpA, ?_, oDone, oLt⟩
      intro hsto
      exact absurd (show scpHolds oth.ph = true by simp [hsto, scpHolds])
        (by simp [hOthNot])
    · simp [scpAIncr, hph]
    · have h1 : scpBIncr th = th.i := by simp [scpBIncr, hph]
      have h2 : scpBIncr { th with ph := ScpPh.sleep } = th.i + 1 := by
        simp [scpBIncr]
      rw [h1, h2, hTmpEq]
      push_cast
      ring
  | sleep =>
    have hOwnA : ownA = some me := hHoldA.mp (by simp [hph, scpHolds])
    have hOwnB : ownB = some me := hHoldB.mp (by simp [hph, scpHolds])
    simp only [scpThreadStep, hph]
    refine ⟨?_, ?_, ?_, ?_⟩
    · refine ⟨by simp [scpHolds, hOwnA], by simp [scpHolds, hOwnB], by simp, by simp,
        by simp, ?_⟩
      intro _
      exact hLt (by simp [hph])
    · exact ⟨oHoldA, oHoldB, oTmpA, oTmpB, oDone, oLt⟩
    · simp [scpAIncr, hph]
    · simp [scpBIncr, hph]
  | unlockBoth =>
    have hOwnA : ownA = some me := hHoldA.mp (by simp [hph, scpHolds])
    have hiN : th.i < N := hLt (by simp [hph])
    have hOthNot : scpHolds oth.ph = false := by
      cases h : scpHolds oth.ph
      · rfl
      · have := oHoldA.mp h
        rw [hOwnA] at this
        exact absurd this (some_not_ne me)
    simp only [scpThreadStep, hph]
    refine ⟨?_, ?_, ?_, ?_⟩
    · refine ⟨?_, ?_, ?_, ?_, ?_, ?_⟩
      · by_cases hlt : th.i + 1 < N <;> simp [hlt, scpHolds]
      · by_cases hlt : th.i + 1 < N <;> simp [hlt, scpHolds]
      · by_cases hlt : th.i + 1 < N <;> simp [hlt]
      · by_cases hlt : th.i + 1 < N <;> simp [hlt]
      · by_cases hlt : th.i + 1 < N
        · simp [hlt]
        · simp [hlt]
          omega
      · by_cases hlt : th.i + 1 < N
        · simp [hlt]
        · simp [hlt]
    · refine ⟨?_, ?_, oTmpA, oTmpB, oDone, oLt⟩ <;>
        exact ⟨fun hh => absurd hh (by simp [hOthNot]),
          fun hh => absurd hh (by simp)⟩
    · have h1 : scpAIncr th = th.i + 1 := by simp [scpAIncr, hph]
      have h2 : scpAIncr
          { th with i := th.i + 1,
                    ph := if th.i + 1 < N then ScpPh.lockBoth else ScpPh.done }
          = th.i + 1 := by
        by_cases hlt : th.i + 1 < N <;> simp [scpAIncr, hlt]
      rw [h1, h2]
    · have h1 : scpBIncr th = th.i + 1 := by simp [scpBIncr, hph]
      have h2 : scpBIncr
          { th with i := th.i + 1,
                    ph := if th.i + 1 < N then ScpPh.lockBoth else ScpPh.done }
          = th.i + 1 := by
        by_cases hlt : th.i + 1 < N <;> simp [scpBIncr, hlt]
      rw [h1, h2]
  | done =>
    simp only [scpThreadStep, hph]
    exact ⟨⟨hHoldA, hHoldB, hTmpA, hTmpB, hDone, hLt⟩,
      ⟨oHoldA, oHoldB, oTmpA, oTmpB, oDone, oLt⟩, trivial, trivial⟩

lemma scpStep_false (N : Nat) (s : ScpState) :
    scpStep N s false =
      { s with ra := (scpThreadStep N s.ra s.rb s.ownA s.ownB false s.t1).ra,
               rb := (scpThreadStep N s.ra s.rb s.ownA s.ownB false s.t1).rb,
               ownA := (scpThreadStep N s.ra s.rb s.ownA s.ownB false s.t1).ownA,
               ownB := (scpThreadStep N s.ra s.rb s.ownA s.ownB false s.t1).ownB,
               t1 := (scpThreadStep N s.ra s.rb s.ownA s.ownB false s.t1).th } := rfl

lemma scpStep_true (N : Nat) (s : ScpState) :
    scpStep N s true =
      { s with ra := (scpThreadStep N s.ra s.rb s.ownA s.ownB true s.t2).ra,
               rb := (scpThreadStep N s.ra s.rb s.ownA s.ownB true s.t2).rb,
               ownA := (scpThreadStep N s.ra s.rb s.ownA s.ownB true s.t2).ownA,
               ownB := (scpThreadStep N s.ra s.rb s.ownA s.ownB true s.t2).ownB,
               t2 := (scpThreadStep N s.ra s.rb s.ownA s.ownB true s.t2).th } := rfl

/-- The global Scoped-Dual invariant is preserved by every step. -/
lemma scpStep_inv {V0A V0B : Int} {N : Nat} {s : ScpState}
    (h : scpInv V0A V0B N s) (tid : Bool) : scpInv V0A V0B N (scpStep N s tid) := by
  obtain ⟨hra, hrb, h1, h2⟩ := h
  cases tid
  · obtain ⟨k1, k2, k3, k4⟩ :=
      scpThreadStep_inv h1
        (show scpThInv N s.ra s.rb s.ownA s.ownB (!false) s.t2 from h2)
    rw [scpStep_false]
    refine ⟨?_, ?_, k1, k2⟩
    · show (scpThreadStep N s.ra s.rb s.ownA s.ownB false s.t1).ra
        = V0A + (scpAIncr (scpThreadStep N s.ra s.rb s.ownA s.ownB false s.t1).th : Int)
            + (scpAIncr s.t2 : Int)
      omega
    · show (scpThreadStep N s.ra s.rb s.ownA s.ownB false s.t1).rb
        = V0B + (scpBIncr (scpThreadStep N s.ra s.rb s.ownA s.ownB false s.t1).th : Int)
            + (scpBIncr s.t2 : Int)
      omega
  · obtain ⟨k1, k2, k3, k4⟩ :=
      scpThreadStep_inv h2
        (show scpThInv N s.ra s.rb s.ownA s.ownB (!true) s.t1 from h1)
    rw [scpStep_true]
    refine ⟨?_, ?_, k2, k1⟩
    · show (scpThreadStep N s.ra s.rb s.ownA s.ownB true s.t2).ra
        = V0A + (scpAIncr s.t1 : Int)
            + (scpAIncr (scpThreadStep N s.ra s.rb s.ownA s.ownB true s.t2).th : Int)
      omega
    · show (scpThreadStep N s.ra s.rb s.ownA s.ownB true s.t2).rb
        = V0B + (scpBIncr s.t1 : Int)
            + (scpBIncr (scpThreadStep N s.ra s.rb s.ownA s.ownB true s.t2).th : Int)
      omega

/-- The global Scoped-Dual invariant holds after any schedule. -/
lemma scpRun_inv {V0A V0B : Int} {N : Nat} {s : ScpState}
    (h : scpInv V0A V0B N s) (sched : List Bool) :
    scpInv V0A V0B N (scpRun N s sched) := by
  induction sched generalizing s with
  | nil => exact h
  | cons x xs ih => exact ih (scpStep_inv h x)

/-- The initial Scoped-Dual state satisfies the invariant. -/
lemma scpInit_inv (V0A V0B : Int) (N : Nat) :
    scpInv V0A V0B N (scpInit V0A V0B N) := by
  rcases Nat.eq_zero_or_pos N with hN | hN
  · subst hN
    refine ⟨by simp [scpInit, scpInitThread, scpAIncr],
      by simp [scpInit, scpInitThread, scpBIncr], ?_, ?_⟩ <;>
      exact ⟨by simp [scpInit, scpInitThread, scpHolds],
        by simp [scpInit, scpInitThread, scpHolds],
        by simp [scpInit, scpInitThread], by simp [scpInit, scpInitThread],
        by simp [scpInit, scpInitThread], by simp [scpInit, scpInitThread]⟩
  · refine ⟨by simp [scpInit, scpInitThread, scpAIncr, hN],
      by simp [scpInit, scpInitThread, scpBIncr, hN], ?_, ?_⟩ <;>
      exact ⟨by simp [scpInit, scpInitThread, scpHolds, hN],
        by simp [scpInit, scpInitThread, scpHolds, hN],
        by simp [scpInit, scpInitThread, hN], by simp [scpInit, scpInitThread, hN],
        by simp [scpInit, scpInitThread, hN],
        by simpa [scpInit, scpInitThread, hN] using hN⟩

/-- Any completed Scoped-Dual execution is additive on both resources. -/
lemma scp_additive (V0A V0B : Int) (N : Nat) (sched : List Bool)
    (h1 : (scpRun N (scpInit V0A V0B N) sched).t1.ph = ScpPh.done)
    (h2 : (scpRun N (scpInit V0A V0B N) sched).t2.ph = ScpPh.done) :
    (scpRun N (scpInit V0A V0B N) sched).ra = V0A + 2 * N ∧
    (scpRun N (scpInit V0A V0B N) sched).rb = V0B + 2 * N := by
  obtain ⟨hra, hrb, ⟨_, _, _, _, hd1, _⟩, ⟨_, _, _, _, hd2, _⟩⟩ :=
    scpRun_inv (scpInit_inv V0A V0B N) sched
  have ea1 : scpAIncr (scpRun N (scpInit V0A V0B N) sched).t1 = N := by
    simp [scpAIncr, h1, hd1 h1]
  have ea2 : scpAIncr (scpRun N (scpInit V0A V0B N) sched).t2 = N := by
    simp [scpAIncr, h2, hd2 h2]
  have eb1 : scpBIncr (scpRun N (scpInit V0A V0B N) sched).t1 = N := by
    simp [scpBIncr, h1, hd1 h1]
  have eb2 : scpBIncr (scpRun N (scpInit V0A V0B N) sched).t2 = N := by
    simp [scpBIncr, h2, hd2 h2]
  constructor
  · rw [hra, ea1, ea2]
    push_cast
    ring
  · rw [hrb, eb1, eb2]
    push_cast
    ring

/-- Any completed Ordered-Dual execution is additive on both resources. -/
lemma ord_additive (V0A V0B : Int) (N : Nat) (sched : List Bool)
    (h1 : (ordRun N (ordInit V0A V0B N) sched).t1.ph = OrdPh.done)
    (h2 : (ordRun N (ordInit V0A V0B N) sched).t2.ph = OrdPh.done) :
    (ordRun N (ordInit V0A V0B N) sched).ra = V0A + 2 * N ∧
    (ordRun N (ordInit V0A V0B N) sched).rb = V0B + 2 * N := by
  obtain ⟨hra, hrb, ⟨_, _, _, _, hd1, _⟩, ⟨_, _, _, _, hd2, _⟩⟩ :=
    ordRun_inv (ordInit_inv V0A V0B N) sched
  have ea1 : ordAIncr (ordRun N (ordInit V0A V0B N) sched).t1 = N := by
    simp [ordAIncr, h1, hd1 h1]
  have ea2 : ordAIncr (ordRun N (ordInit V0A V0B N) sched).t2 = N := by
    simp [ordAIncr, h2, hd2 h2]
  have eb1 : ordBIncr (ordRun N (ordInit V0A V0B N) sched).t1 = N := by
    simp [ordBIncr, h1, hd1 h1]
  have eb2 : ordBIncr (ordRun N (ordInit V0A V0B N) sched).t2 = N := by
    simp [ordBIncr, h2, hd2 h2]
  constructor
  · rw [hra, ea1, ea2]
    push_cast
    ring
  · rw [hrb, eb1, eb2]
    push_cast
    ring

/-- Schedule letting Scoped-Dual worker 1 finish one iteration, then worker 2. -/
def scpSched16 : List Bool := List.replicate 8 false ++ List.replicate 8 true

/-- Schedule letting Ordered-Dual worker 1 finish one iteration, then worker 2. -/
def ordSched20 : List Bool := List.replicate 10 false ++ List.replicate 10 true

/-- C2: For the Scoped-Dual and Ordered-Dual strategies with initial values
`(V0A, V0B)` and two workers each running `N` iterations (`N ≥ 0`), every
execution in which both workers complete ends with final values
`(V0A + 2*N, V0B + 2*N)`; in particular, with the program's initial values
`100` and `200` and `N = 1000` under Scoped-Dual, the final values are
Resource A = `2100` and Resource B = `2200`. -/
theorem dual_strategies_additive :
    (∀ (V0A V0B : Int) (N : Nat) (sched : List Bool),
      (scpRun N (scpInit V0A V0B N) sched).t1.ph = ScpPh.done →
      (scpRun N (scpInit V0A V0B N) sched).t2.ph = ScpPh.done →
      (scpRun N (scpInit V0A V0B N) sched).ra = V0A + 2 * N ∧
      (scpRun N (scpInit V0A V0B N) sched).rb = V0B + 2 * N) ∧
    (∀ (V0A V0B : Int) (N : Nat) (sched : List Bool),
      (ordRun N (ordInit V0A V0B N) sched).t1.ph = OrdPh.done →
      (ordRun N (ordInit V0A V0B N) sched).t2.ph = OrdPh.done →
      (ordRun N (ordInit V0A V0B N) sched).ra = V0A + 2 * N ∧
      (ordRun N (ordInit V0A V0B N) sched).rb = V0B + 2 * N) ∧
    (∀ sched : List Bool,
      (scpRun 1000 (scpInit 100 200 1000) sched).t1.ph = ScpPh.done →
      (scpRun 1000 (scpInit 100 200 1000) sched).t2.ph = ScpPh.done →
      (scpRun 1000 (scpInit 100 200 1000) sched).ra = 2100 ∧
      (scpRun 1000 (scpInit 100 200 1000) sched).rb = 2200) := by
  refine ⟨fun V0A V0B N sched h1 h2 => scp_additive V0A V0B N sched h1 h2,
    fun V0A V0B N sched h1 h2 => ord_additive V0A V0B N sched h1 h2,
    fun sched h1 h2 => ?_⟩
  have h := scp_additive 100 200 1000 sched h1 h2
  norm_num at h
  exact h

/-- C2 witness: with initial values `(100, 200)`, `N = 1` and concrete
completing schedules, Scoped-Dual ends at `(102, 202)` and Ordered-Dual at
`(102, 202)`. -/
theorem dual_strategies_additive_witness :
    (scpRun 1 (scpInit 100 200 1) scpSched16).t1.ph = ScpPh.done ∧
    (scpRun 1 (scpInit 100 200 1) scpSched16).ra = 100 + 2 * 1 ∧
    (scpRun 1 (scpInit 100 200 1) scpSched16).rb = 200 + 2 * 1 ∧
    (ordRun 1 (ordInit 100 200 1) ordSched20).ra = 100 + 2 * 1 ∧
    (ordRun 1 (ordInit 100 200 1) ordSched20).rb = 200 + 2 * 1 :=
  ⟨by decide,
   (dual_strategies_additive.1 100 200 1 scpSched16 (by decide) (by decide)).1,
   (dual_strategies_additive.1 100 200 1 scpSched16 (by decide) (by decide)).2,
   (dual_strategies_additive.2.1 100 200 1 ordSched20 (by decide) (by decide)).1,
   (dual_strategies_additive.2.1 100 200 1 ordSched20 (by decide) (by decide)).2⟩

/-- Every Ordered-Dual phase holding `mutex_b` also holds `mutex_a`. -/
lemma ordHoldsB_imp_holdsA (ph : OrdPh) (h : ordHoldsB ph = true) :
    ordHoldsA ph = true := by
  cases ph <;> first
    | rfl
    | simp [ordHoldsB] at h

/-- C6: In the Ordered-Dual strategy each worker acquires `mutex_a` strictly
before `mutex_b` and releases them in reverse order, so in every reachable
state no worker holds `mutex_b` without also holding `mutex_a`: whichever
worker owns `mutex_b` also owns `mutex_a`. -/
theorem ordered_never_holds_B_without_A (V0A V0B : Int) (N : Nat)
    (sched : List Bool) (b : Bool)
    (h : (ordRun N (ordInit V0A V0B N) sched).ownB = some b) :
    (ordRun N (ordInit V0A V0B N) sched).ownA = some b := by
  obtain ⟨_, _, ⟨h1A, h1B, _⟩, ⟨h2A, h2B, _⟩⟩ :=
    ordRun_inv (ordInit_inv V0A V0B N) sched
  cases b
  · exact h1A.mp (ordHoldsB_imp_holdsA _ (h1B.mpr h))
  · exact h2A.mp (ordHoldsB_imp_holdsA _ (h2B.mpr h))

/-- C6 witness: after worker 1 acquires `mutex_a` and then `mutex_b`, it owns
`mutex_b`, and indeed it also owns `mutex_a`. -/
theorem ordered_never_holds_B_without_A_witness :
    (ordRun 1 (ordInit 100 200 1) [false, false]).ownB = some false ∧
    (ordRun 1 (ordInit 100 200 1) [false, false]).ownA = some false :=
  ⟨by decide,
   ordered_never_holds_B_without_A 100 200 1 [false, false] false (by decide)⟩

/-! ## Deadlocking strategy: `deadlock_thread1` / `deadlock_thread2`
(src/main.cpp lines 34-49 and 52-67)

Thread 1: announce; lock `mutex_a`; announce; sleep 100ms; lock `mutex_b`;
announce; `resource_a += 10`; `resource_b += 10`; unlock B; unlock A.
Thread 2: announce; lock `mutex_b`; announce; sleep 100ms; lock `mutex_a`;
announce; `resource_a += 20`; `resource_b += 20`; unlock A; unlock B.
The 100ms sleeps are real-time delays; in the interleaving model a sleep is
a single step, so schedules where one thread finishes before the other
starts remain semantically possible. -/

/-- Program counter of a deadlock-demo thread (`lockFirst`/`lockSecond` are
`mutex_a`/`mutex_b` for thread 1 and `mutex_b`/`mutex_a` for thread 2). -/
inductive DPh
  | announceStart
  | lockFirst
  | announceFirst
  | sleep
  | lockSecond
  | announceBoth
  | addA
  | addB
  | unlockSecond
  | unlockFirst
  | done
  deriving DecidableEq

/-- Local state of a deadlock-demo thread. -/
structure DThread where
  ph : DPh
  out : List String
  deriving DecidableEq

/-- Shared state of the Deadlocking system. -/
structure DState where
  ra : Int
  rb : Int
  ownA : Option Bool
  ownB : Option Bool
  t1 : DThread
  t2 : DThread
  deriving DecidableEq

/-- One atomic step of `deadlock_thread1` (locks A then B, adds 10 to each
resource, unlocks B then A).  Acquiring a held mutex is a blocked no-op. -/
def deadlock_thread1_step (s : DState) : DState :=
  match s.t1.ph with
  | .announceStart =>
    { s with t1 := { s.t1 with ph := .lockFirst, out := s.t1.out ++ ["Thread 1: Locking A..."] } }
  | .lockFirst =>
    match s.ownA with
    | none => { s with ownA := some false, t1 := { s.t1 with ph := .announceFirst } }
    | some _ => s
  | .announceFirst =>
    { s with t1 := { s.t1 with ph := .sleep, out := s.t1.out ++ ["Thread 1: Got A, now trying B..."] } }
  | .sleep => { s with t1 := { s.t1 with ph := .lockSecond } }
  | .lockSecond =>
    match s.ownB with
    | none => { s with ownB := some false, t1 := { s.t1 with ph := .announceBoth } }
    | some _ => s
  | .announceBoth =>
    { s with t1 := { s.t1 with ph := .addA, out := s.t1.out ++ ["Thread 1: Got both!"] } }
  | .addA => { s with ra := s.ra + 10, t1 := { s.t1 with ph := .addB } }
  | .addB => { s with rb := s.rb + 10, t1 := { s.t1 with ph := .unlockSecond } }
  | .unlockSecond => { s with ownB := none, t1 := { s.t1 with ph := .unlockFirst } }
  | .unlockFirst => { s with ownA := none, t1 := { s.t1 with ph := .done } }
  | .done => s

/-- One atomic step of `deadlock_thread2` (locks B then A, adds 20 to each
resource, unlocks A then B). -/
def deadlock_thread2_step (s : DState) : DState :=
  match s.t2.ph with
  | .announceStart =>
    { s with t2 := { s.t2 with ph := .lockFirst, out := s.t2.out ++ ["Thread 2: Locking B..."] } }
  | .lockFirst =>
    match s.ownB with
    | none => { s with ownB := some true, t2 := { s.t2 with ph := .announceFirst } }
    | some _ => s
  | .announceFirst =>
    { s with t2 := { s.t2 with ph := .sleep, out := s.t2.out ++ ["Thread 2: Got B, now trying A..."] } }
  | .sleep => { s with t2 := { s.t2 with ph := .lockSecond } }
  | .lockSecond =>
    match s.ownA with
    | none => { s with ownA := some true, t2 := { s.t2 with ph := .announceBoth } }
    | some _ => s
  | .announceBoth =>
    { s with t2 := { s.t2 with ph := .addA, out := s.t2.out ++ ["Thread 2: Got both!"] } }
  | .addA => { s with ra := s.ra + 20, t2 := { s.t2 with ph := .addB } }
  | .addB => { s with rb := s.rb + 20, t2 := { s.t2 with ph := .unlockSecond } }
  | .unlockSecond => { s with ownA := none, t2 := { s.t2 with ph := .unlockFirst } }
  | .unlockFirst => { s with ownB := none, t2 := { s.t2 with ph := .done } }
  | .done => s

/-- One step of the Deadlocking system. -/
def dStep (s : DState) (tid : Bool) : DState :=
  if tid then deadlock_thread2_step s else deadlock_thread1_step s

/-- Run the Deadlocking system under a schedule. -/
def dRun (s : DState) (sched : List Bool) : DState :=
  sched.foldl dStep s

/-- Initial Deadlocking system state (`resource_a = 100`, `resource_b = 200`,
both mutexes free). -/
def dInit : DState :=
  { ra := 100, rb := 200, ownA := none, ownB := none,
    t1 := { ph := .announceStart, out := [] },
    t2 := { ph := .announceStart, out := [] } }

/-- The circular-wait state: worker 1 holds `mutex_a` and is blocked acquiring
`mutex_b`, worker 2 holds `mutex_b` and is blocked acquiring `mutex_a`. -/
def CircularWait (s : DState) : Prop :=
  s.t1.ph = DPh.lockSecond ∧ s.t2.ph = DPh.lockSecond ∧
  s.ownA = some false ∧ s.ownB = some true

/-- Schedule that makes each worker acquire its first mutex and sleep before
either attempts its second mutex (the interleaving the 100ms sleeps produce
in practice). -/
def dSchedDead : List Bool := [false, false, false, false, true, true, true, true]

/-- Schedule where worker 1 runs from start to finish before worker 2 starts. -/
def dSchedSeq : List Bool := List.replicate 10 false ++ List.replicate 10 true

/-- In the circular-wait state every step of either thread is a no-op. -/
lemma dStep_circular {s : DState} (h : CircularWait s) (tid : Bool) :
    dStep s tid = s := by
  obtain ⟨h1, h2, hA, hB⟩ := h
  cases tid
  · simp [dStep, deadlock_thread1_step, h1, hB]
  · simp [dStep, deadlock_thread2_step, h2, hA]

/-- From the circular-wait state no schedule changes the state at all. -/
lemma dRun_circular {s : DState} (h : CircularWait s) (sched : List Bool) :
    dRun s sched = s := by
  induction sched with
  | nil => rfl
  | cons x xs ih =>
    show dRun (dStep s x) xs = s
    rw [dStep_circular h x]
    exact ih

/-- C3 counterexample: the deadlock is not semantically guaranteed.  Under the
schedule where worker 1 runs all ten of its steps before worker 2 starts,
both workers of the Deadlocking strategy run to completion — refuting the
claim that the workers reliably enter a circular wait and that neither worker
ever completes. -/
theorem deadlock_completion_possible :
    (dRun dInit dSchedSeq).t1.ph = DPh.done ∧
    (dRun dInit dSchedSeq).t2.ph = DPh.done := by
  decide

/-- C3 (amended): the circular wait is reachable — under the interleaving the
100ms sleeps produce in practice (each worker acquires its first mutex and
sleeps before either tries its second), the system is in the circular-wait
state — and from any circular-wait state no schedule makes any further
progress: the state is permanent and neither worker ever completes, so a
dispatcher joining on them would wait forever.  (Completion without deadlock
remains semantically possible under schedules that defeat the sleeps, per the
counterexample.) -/
theorem deadlock_circular_wait_permanent :
    CircularWait (dRun dInit dSchedDead) ∧
    (∀ s : DState, CircularWait s → ∀ sched : List Bool,
      dRun s sched = s ∧ (dRun s sched).t1.ph ≠ DPh.done ∧
      (dRun s sched).t2.ph ≠ DPh.done) := by
  constructor
  · exact ⟨by decide, by decide, by decide, by decide⟩
  · intro s hs sched
    have h := dRun_circular hs sched
    refine ⟨h, ?_, ?_⟩
    · rw [h, hs.1]
      simp
    · rw [h, hs.2.1]
      simp

/-- C3 witness: from the concretely reached circular-wait state, scheduling
both workers repeatedly leaves worker 1 incomplete. -/
theorem deadlock_circular_wait_permanent_witness :
    (dRun (dRun dInit dSchedDead) [false, true, false, true]).t1.ph ≠ DPh.done :=
  (deadlock_circular_wait_permanent.2 (dRun dInit dSchedDead)
    deadlock_circular_wait_permanent.1 [false, true, false, true]).2.1

/-! ## CLI glue: `print_usage`, `parse_args`, and the dispatch of `main`
(src/main.cpp lines 107-176)

`main` prints the usage text, parses the arguments, then switches on the
method: methods 1-4 spawn two workers, print the method-2 notice for the
Deadlocking strategy, join both workers, print the elapsed time and return 0;
any other method prints an error plus the usage text and returns 1.  The
trace below records these observable actions in program order (for method 2
the joins never actually return at run time, but they occur in this order in
the program text). -/

/-- Output lines of `print_usage` (src/main.cpp lines 107-118).  The code
concatenates `program_name` directly with `--method` (no separating space). -/
def print_usage (pn : String) : List String :=
  ["Usage: " ++ pn ++ "--method [method] --iters [iters]",
   "Methods:",
   "  1 - Single resource access (safe)",
   "  2 - Deadlock demo (simulated)",
   "  3 - Scoped lock method",
   "  4 - Ordered locks method",
   "Default: method=1 iters=1000",
   "Examples:",
   "  " ++ pn ++ " 3",
   "  " ++ pn ++ " 4 10000"]

/-- Modelled behavior of `zen::cmd_args::is_present` (kaizen.h, an external
single-header dependency not in this repository): whether the flag occurs
among the command-line arguments. -/
def is_present (args : List String) (flag : String) : Bool :=
  args.contains flag

/-- Whether an argument token is an option (starts with `-`). -/
def isOptionToken (a : String) : Bool :=
  match a.toList with
  | '-' :: _ => true
  | _ => false

/-- Modelled behavior of `zen::cmd_args::get_options` (kaizen.h, external):
the values following the first occurrence of the flag, up to the next option
token (one starting with `-`). -/
def get_options (args : List String) (flag : String) : List String :=
  ((args.dropWhile (fun a => a != flag)).drop 1).takeWhile
    (fun a => !(isOptionToken a))

/-- Digit list to number, most significant first. -/
def digitsToNat (cs : List Char) : Nat :=
  cs.foldl (fun acc c => 10 * acc + (c.toNat - Char.toNat '0')) 0

/-- Modelled behavior of `std::stoi`: skip leading spaces, optional sign,
then decimal digits; raises `std::invalid_argument` (modelled as
`Except.error`) when no digit can be consumed.  Out-of-range is not modelled
(Lean `Int` is unbounded). -/
def stoi (s : String) : Except Unit Int :=
  let core : List Char → Except Unit Int := fun r =>
    let ds := r.takeWhile Char.isDigit
    if ds.isEmpty then Except.error () else Except.ok (digitsToNat ds)
  match s.toList.dropWhile (fun c => c = ' ') with
  | '-' :: r => (core r).map (fun v => -v)
  | '+' :: r => core r
  | r => core r

/-- Model of `parse_args` (src/main.cpp lines 120-134): the lines it logs and
either the parsed `(method, iters)` pair or a raised error.  If `--method` or
`--iters` is absent, both default (`method = 1`, `iters = 1'000'000`) and a
notice is logged.  Otherwise both values are parsed with `std::stoi`, which
raises on unparsable input (there is no try/catch, so the exception escapes
`parse_args`); indexing `[0]` of an empty option vector — undefined behavior
in C++ — is modelled as an error as well. -/
def parse_args (args : List String) : List String × Except Unit (Int × Int) :=
  if !(is_present args "--method") || !(is_present args "--iters") then
    (["No --method or --iters provided. Using default values: "],
      Except.ok (1, 1000000))
  else
    ([],
      match (get_options args "--method").head?, (get_options args "--iters").head? with
      | some m, some it =>
        match stoi m, stoi it with
        | Except.ok mv, Except.ok itv => Except.ok (mv, itv)
        | _, _ => Except.error ()
      | _, _ => Except.error ())

/-- A worker start request recorded by the dispatcher of `main`. -/
inductive WorkerFn
  | safe_single (id : Nat) (iters : Int)
  | deadlock1
  | deadlock2
  | scoped (id : Nat) (iters : Int)
  | ordered (id : Nat) (iters : Int)
  deriving DecidableEq

/-- Observable actions of `main`, in program order.  `outTime` is the
`Execution time: ... ms` line, whose value is run-time dependent. -/
inductive MainEvent
  | out (line : String)
  | spawn (w : WorkerFn)
  | join (which : Nat)
  | outTime
  | exit (code : Int)
  deriving DecidableEq

/-- Events of `main` after the switch: join both workers, report elapsed
time, return 0 (src/main.cpp lines 169-175). -/
def mainTail : List MainEvent :=
  [MainEvent.join 1, MainEvent.join 2, MainEvent.outTime, MainEvent.exit 0]

/-- The dispatch `switch` of `main` (src/main.cpp lines 144-175), given the
parsed method and iteration count: the observable actions in program order. -/
def mainCore (pn : String) (method : Int) (iters : Int) : List MainEvent :=
  if method = 1 then
    [MainEvent.spawn (WorkerFn.safe_single 1 iters),
     MainEvent.spawn (WorkerFn.safe_single 2 iters)] ++ mainTail
  else if method = 2 then
    [MainEvent.spawn WorkerFn.deadlock1,
     MainEvent.spawn WorkerFn.deadlock2,
     MainEvent.out "Deadlock occurred, threads did not complete."] ++ mainTail
  else if method = 3 then
    [MainEvent.spawn (WorkerFn.scoped 1 iters),
     MainEvent.spawn (WorkerFn.scoped 2 iters)] ++ mainTail
  else if method = 4 then
    [MainEvent.spawn (WorkerFn.ordered 1 iters),
     MainEvent.spawn (WorkerFn.ordered 2 iters)] ++ mainTail
  else
    [MainEvent.out ("Invalid method: " ++ toString method),
     MainEvent.out "Valid methods: 1, 2, 3, 4"] ++
    (print_usage pn).map MainEvent.out ++ [MainEvent.exit 1]

/-- Full model of `main` (src/main.cpp lines 137-176): print the usage text
first, then parse; on a parse error the uncaught `std::stoi` exception
terminates the process before the switch. -/
def mainModel (pn : String) (args : List String) : List MainEvent :=
  (print_usage pn).map MainEvent.out ++
    (match parse_args args with
     | (log, Except.ok (m, it)) => log.map MainEvent.out ++ mainCore pn m it
     | (log, Except.error _) => log.map MainEvent.out)

/-- Worker spawn events of a `main` event trace. -/
def spawns : List MainEvent → List WorkerFn
  | [] => []
  | MainEvent.spawn w :: es => w :: spawns es
  | _ :: es => spawns es

/-- Exit codes of a `main` event trace. -/
def exits : List MainEvent → List Int
  | [] => []
  | MainEvent.exit c :: es => c :: exits es
  | _ :: es => exits es

/-- C4: for every selector outside 1-4, `main` prints the invalid-method
error followed by the usage text, spawns no worker (hence the shared
resources are never touched — mutation happens only inside workers), and
exits with the non-zero status 1; for each selector in 1-4 it spawns exactly
two workers. -/
theorem selector_validation (pn : String) (method iters : Int) :
    (¬(method = 1 ∨ method = 2 ∨ method = 3 ∨ method = 4) →
      mainCore pn method iters =
        [MainEvent.out ("Invalid method: " ++ toString method),
         MainEvent.out "Valid methods: 1, 2, 3, 4"] ++
        (print_usage pn).map MainEvent.out ++ [MainEvent.exit 1] ∧
      spawns (mainCore pn method iters) = [] ∧
      exits (mainCore pn method iters) = [1]) ∧
    ((method = 1 ∨ method = 2 ∨ method = 3 ∨ method = 4) →
      (spawns (mainCore pn method iters)).length = 2) := by
  constructor
  · intro hm
    have h1 : ¬ method = 1 := fun h => hm (Or.inl h)
    have h2 : ¬ method = 2 := fun h => hm (Or.inr (Or.inl h))
    have h3 : ¬ method = 3 := fun h => hm (Or.inr (Or.inr (Or.inl h)))
    have h4 : ¬ method = 4 := fun h => hm (Or.inr (Or.inr (Or.inr h)))
    have heq : mainCore pn method iters =
        [MainEvent.out ("Invalid method: " ++ toString method),
         MainEvent.out "Valid methods: 1, 2, 3, 4"] ++
        (print_usage pn).map MainEvent.out ++ [MainEvent.exit 1] := by
      simp [mainCore, h1, h2, h3, h4]
    refine ⟨heq, ?_, ?_⟩ <;>
      rw [heq] <;> simp [spawns, exits, print_usage]
  · rintro (h | h | h | h) <;> subst h <;>
      simp [mainCore, mainTail, spawns]

/-- C4 witness: selector 0 spawns nothing and exits 1; selector 3 spawns
exactly two workers. -/
theorem selector_validation_witness :
    spawns (mainCore "app" 0 5) = [] ∧ exits (mainCore "app" 0 5) = [1] ∧
    (spawns (mainCore "app" 3 5)).length = 2 :=
  ⟨((selector_validation "app" 0 5).1 (by decide)).2.1,
   ((selector_validation "app" 0 5).1 (by decide)).2.2,
   (selector_validation "app" 3 5).2 (by decide)⟩

/-- C5 counterexample: the claim says an unparsable selector defaults to 1
and parsing never fails.  With both flags present and `--method abc`,
`std::stoi` raises and `parse_args` fails rather than returning
`(1, 1000000)`. -/
theorem parse_args_raises_on_unparsable :
    (parse_args ["prog", "--method", "abc", "--iters", "10"]).2
      = Except.error () ∧
    (parse_args ["prog", "--method", "abc", "--iters", "10"]).2
      ≠ Except.ok (1, 1000000) := by
  have h : (parse_args ["prog", "--method", "abc", "--iters", "10"]).2
      = Except.error () := by rfl
  exact ⟨h, by simp [h]⟩

/-- C5 (amended): if `--method` or `--iters` is absent from the arguments,
`parse_args` returns the defaults `(1, 1'000'000)` without error (this covers
the absent-selector and absent-iteration-count cases); only when both flags
are present are the values parsed, and an unparsable value then raises via
`std::stoi` instead of defaulting. -/
theorem parse_args_defaults_when_flag_absent (args : List String)
    (h : is_present args "--method" = false ∨ is_present args "--iters" = false) :
    (parse_args args).2 = Except.ok (1, 1000000) := by
  rcases h with h | h <;> simp [parse_args, h]

/-- C5 witness: with no flags at all, `parse_args` returns the defaults. -/
theorem parse_args_defaults_when_flag_absent_witness :
    (parse_args ["prog"]).2 = Except.ok (1, 1000000) :=
  parse_args_defaults_when_flag_absent ["prog"] (Or.inl (by decide))

/-- C9: on every run, whatever the arguments and before any parsing or
validation, `main` prints the full usage text as its first output, and that
text includes the line `Default: method=1 iters=1000`. -/
theorem usage_printed_first_always (pn : String) (args : List String) :
    (∃ rest, mainModel pn args = (print_usage pn).map MainEvent.out ++ rest) ∧
    "Default: method=1 iters=1000" ∈ print_usage pn := by
  constructor
  · exact ⟨_, rfl⟩
  · simp [print_usage]

/-- C10: for selector 2, the main thread prints
`Deadlock occurred, threads did not complete.` immediately after spawning the
two deadlock workers and before joining them — the message appears on every
method-2 run, between the spawn events and the first join, even though
neither worker has been joined. -/
theorem deadlock_message_printed_before_join (pn : String) (iters : Int) :
    ∃ post, mainCore pn 2 iters =
      MainEvent.spawn WorkerFn.deadlock1 :: MainEvent.spawn WorkerFn.deadlock2 ::
      MainEvent.out "Deadlock occurred, threads did not complete." ::
      MainEvent.join 1 :: post := by
  refine ⟨[MainEvent.join 2, MainEvent.outTime, MainEvent.exit 0], ?_⟩
  simp [mainCore, mainTail]

end DeadlockPrevention
